import Mathlib

/-!
Shallow embedding of `src/main.py` (Best Buy price-drop monitor) and
verification of its specification claims.

Modelling conventions:
* Python `Decimal` is modelled as `ℚ`.  All prices in the program go through
  `safe_decimal`, and the spec stipulates exact decimal arithmetic; `ℚ`
  realises exact decimal arithmetic (every decimal string denotes a rational,
  and `+ - * /` on those values are exact).
* Points in time are modelled as `ℤ` (seconds).  A stored SKU timestamp is
  modelled by the result of parsing it: `Option ℤ`, `none` standing for a
  string `datetime.fromisoformat` rejects.  `record`ing a fetch stores
  `some now`, matching `datetime.now().isoformat()` which always re-parses.
* Python `str` values are Lean `String`s; `str.isdigit`, `str.isspace` are
  modelled by the ASCII tests `Char.isDigit` / `Char.isWhitespace` (the
  upstream price feed is ASCII).
* Network effects are oracles: a function from request identity to the
  outcome the transport would produce.
-/

namespace BBPriceDrop

/-! ## Numeric normalizer: `safe_decimal` (src/main.py lines 212-245) -/

/-- Python `str.strip()`: remove whitespace from both ends of the string. -/
def pyStrip (s : List Char) : List Char :=
  ((s.dropWhile Char.isWhitespace).reverse.dropWhile Char.isWhitespace).reverse

/-- Character-cleaning loop of `safe_decimal` (lines 223-233).  `i` is the
`enumerate` index over the stripped string and `hasDot` the
`has_decimal_point` flag: keep ASCII digits, keep `.` only if no `.` was kept
before, keep `-` only at index 0, drop everything else. -/
def cleanChars : List Char → ℕ → Bool → List Char
  | [], _, _ => []
  | c :: rest, i, hasDot =>
    if c.isDigit then c :: cleanChars rest (i + 1) hasDot
    else if c = '.' ∧ hasDot = false then c :: cleanChars rest (i + 1) true
    else if c = '-' ∧ i = 0 then c :: cleanChars rest (i + 1) hasDot
    else cleanChars rest (i + 1) hasDot

/-- Numeric value of a digit string, most significant digit first. -/
def digitsVal (cs : List Char) : ℕ :=
  cs.foldl (fun a c => 10 * a + (c.toNat - 48)) 0

/-- Decomposition step of `Decimal(cleaned_value_str)` on the strings
`cleanChars` can produce (an optional leading `-`, digits, at most one `.`):
sign, integer-part digits and fraction-part digits.  The parse succeeds iff
the string contains at least one digit (`Decimal` rejects `"."`, `"-."`,
`"-"` and the empty string with `InvalidOperation`). -/
def parseParts (cs : List Char) : Option (Bool × List Char × List Char) :=
  let neg : Bool := cs.head? = some '-'
  let body := if neg then cs.tail else cs
  if body.any Char.isDigit then
    some (neg, body.takeWhile (fun c => c ≠ '.'), (body.dropWhile (fun c => c ≠ '.')).tail)
  else
    none

/-- Exact rational value of a parsed decimal string. -/
def decValue (neg : Bool) (ip fp : List Char) : ℚ :=
  (if neg then -1 else 1) * ((digitsVal ip : ℚ) + (digitsVal fp : ℚ) / (10 : ℚ) ^ fp.length)

/-- Python `Decimal(cleaned_value_str)`, as `Option ℚ` (`none` models the
`InvalidOperation` branch of `safe_decimal`). -/
def parseCleaned (cs : List Char) : Option ℚ :=
  (parseParts cs).map fun p => decValue p.1 p.2.1 p.2.2

/-- Cleaned character list `safe_decimal` builds for a non-`None` input:
`str.strip` followed by the cleaning loop (started at index 0 with no `.`
seen). -/
def cleanedOf (s : String) : List Char :=
  cleanChars (pyStrip s.data) 0 false

/-- Function `safe_decimal` (lines 212-245): `None` and blank inputs give
`0.00`; otherwise the input is stripped and cleaned, a cleaned string that is
empty or exactly `-` gives `0.00`, and a cleaned string `Decimal` rejects
also gives `0.00`.  Non-string Python inputs enter as their `str()` image. -/
def safe_decimal (value : Option String) : ℚ :=
  match value with
  | none => 0
  | some s =>
    if pyStrip s.data = [] then 0
    else if cleanedOf s = [] ∨ cleanedOf s = ['-'] then 0
    else (parseCleaned (cleanedOf s)).getD 0

/-- Scan described by claim C3, written from the claim text: keep ASCII
digits and the first `.` encountered; `seenDot` records whether a `.` was
already kept. -/
def keepDigitsFirstDot : List Char → Bool → List Char
  | [], _ => []
  | c :: rest, seenDot =>
    if c.isDigit then c :: keepDigitsFirstDot rest seenDot
    else if c = '.' ∧ seenDot = false then c :: keepDigitsFirstDot rest true
    else keepDigitsFirstDot rest seenDot

/-- Scan described by claim C3: a `-` is kept only when it is the very first
character of the scanned string; every other non-digit non-first-dot
character is discarded. -/
def specClean (cs : List Char) : List Char :=
  if cs.head? = some '-' then '-' :: keepDigitsFirstDot cs.tail false
  else keepDigitsFirstDot cs false

/-- Normalizer of claim C3 read literally: blank input gives `0.00`, and
otherwise the scan runs over the input string itself, so a `-` counts as
leading only when it is the very first character of the raw input. -/
def normalize_claim (value : Option String) : ℚ :=
  match value with
  | none => 0
  | some s =>
    if s.data.all Char.isWhitespace then 0
    else if specClean s.data = [] ∨ specClean s.data = ['-'] then 0
    else (parseCleaned (specClean s.data)).getD 0

/-- Normalizer of claim C3 as amended: identical to the claim text except
that the scan runs over the whitespace-stripped input, so a `-` is kept when
it is the first character after surrounding whitespace is removed. -/
def normalize_amended (value : Option String) : ℚ :=
  match value with
  | none => 0
  | some s =>
    if pyStrip s.data = [] then 0
    else if specClean (pyStrip s.data) = [] ∨ specClean (pyStrip s.data) = ['-'] then 0
    else (parseCleaned (specClean (pyStrip s.data))).getD 0

/-! ## Data model -/

/-- Fields of one polled item that the core logic reads (src/main.py:
`item_data.get('Sku')`, `item_data.get('NewPrice')`,
`item_data.get('InStock', False)`). -/
structure Item where
  Sku : Option String
  NewPrice : Option String
  InStock : Bool
deriving DecidableEq

/-- Result record of `_calculate_price_stats` (lines 496-502). -/
structure PriceStatsR where
  current_price : ℚ
  lowest_historical : ℚ
  highest_historical : ℚ
  average_historical : ℚ
  all_historical_prices : List ℚ
deriving DecidableEq

/-- History JSON for one SKU as the core reads it: the `y` values of the
`'1P'` entries (an entry whose `y` is missing carries `none`), plus the
Python truthiness of the whole JSON object (line 468 tests
`if history_data_json and is_persistence_enabled()`; an empty dict is
falsy). -/
structure HistoryJson where
  oneP : List (Option String)
  truthy : Bool
deriving DecidableEq

/-! ## Price statistics engine: `_calculate_price_stats` (lines 475-502) -/

/-- Python `min` over a non-empty list (the empty case is unreachable in
`_calculate_price_stats`, which guards on non-emptiness; `0` stands in for
Python's raised `ValueError` there). -/
def pyMin : List ℚ → ℚ
  | [] => 0
  | x :: xs => xs.foldl min x

/-- Python `max` over a non-empty list (empty case unreachable, as in
`pyMin`). -/
def pyMax : List ℚ → ℚ
  | [] => 0
  | x :: xs => xs.foldl max x

/-- Function `_calculate_price_stats` (lines 475-502): extract the non-`None`
`y` values, normalize the current price, return `none` when the extracted
series is empty, otherwise normalize every historical value and compute
min, max and exact mean. -/
def _calculate_price_stats (oneP : List (Option String)) (currentPriceStr : Option String) :
    Option PriceStatsR :=
  let historical_prices_str := oneP.filterMap id
  let current_price := safe_decimal currentPriceStr
  if historical_prices_str = [] then none
  else
    let historical_prices := historical_prices_str.map fun p => safe_decimal (some p)
    if historical_prices = [] then none
    else
      some
        { current_price := current_price
          lowest_historical := pyMin historical_prices
          highest_historical := pyMax historical_prices
          average_historical :=
            if historical_prices = [] then 0
            else historical_prices.sum / (historical_prices.length : ℚ)
          all_historical_prices := historical_prices }

/-! ## Eligibility rule: `_check_notification_conditions` (lines 504-542) -/

/-- Trigger reason returned by the eligibility rule.  The code builds an
f-string; the claims only inspect which template was used and which concrete
`highest`/`lowest` values it embeds, so the reason is modelled as the
template with its embedded values (`empty` is the `""` of the no-notify
branches). -/
inductive NotifyReason
  | empty
  | atlRestock (highest lowest : ℚ)
  | deepDiscount (highest lowest : ℚ)
deriving DecidableEq

/-- Stage-1 gate `condition_base_50_percent` (lines 511-515): starts `False`;
set from `current < 0.5 * highest` when `highest > 0`, and to `True` when
`highest <= 0` and `current < 0`. -/
def condition_base_50_percent (current highest : ℚ) : Bool :=
  if 0 < highest then decide (current < (1 / 2) * highest)
  else if current < 0 then true
  else false

/-- Sub-condition `sub_condition_2b` (lines 523-527): starts `False`; set
from `current <= lowest * 0.9` when `lowest > 0`, and from
`current < lowest` when `lowest <= 0` and `current < 0`. -/
def sub_condition_2b (current lowest : ℚ) : Bool :=
  if 0 < lowest then decide (current ≤ lowest * (9 / 10))
  else if current < 0 then decide (current < lowest)
  else false

/-- Function `_check_notification_conditions` (lines 504-542): stage-1 gate,
then sub-condition (a) `current == lowest and in_stock`, then (b); (a) is
evaluated first, so its reason wins when both hold. -/
def _check_notification_conditions (item : Item) (stats : PriceStatsR) : Bool × NotifyReason :=
  if condition_base_50_percent stats.current_price stats.highest_historical = false then
    (false, .empty)
  else if decide (stats.current_price = stats.lowest_historical) && item.InStock then
    (true, .atlRestock stats.highest_historical stats.lowest_historical)
  else if sub_condition_2b stats.current_price stats.lowest_historical then
    (true, .deepDiscount stats.highest_historical stats.lowest_historical)
  else
    (false, .empty)

/-- Stage-1 gate exactly as claim C1 states it: `current < 0.5 * highest`
when `highest > 0`, or `current < 0` when `highest == 0` (no clause covers
`highest < 0`). -/
def claimStage1Orig (current highest : ℚ) : Bool :=
  if 0 < highest then decide (current < (1 / 2) * highest)
  else if highest = 0 then decide (current < 0)
  else false

/-- Sub-condition (b) exactly as claim C1 states it: `current <= lowest * 0.9`
when `lowest > 0`, or `current < lowest` when `lowest == 0` (no clause covers
`lowest < 0`). -/
def claimSubBOrig (current lowest : ℚ) : Bool :=
  if 0 < lowest then decide (current ≤ lowest * (9 / 10))
  else if lowest = 0 then decide (current < lowest)
  else false

/-- Decision rule of claim C1 read literally. -/
def claimDecisionOrig (item : Item) (stats : PriceStatsR) : Bool × NotifyReason :=
  if claimStage1Orig stats.current_price stats.highest_historical = false then
    (false, .empty)
  else if decide (stats.current_price = stats.lowest_historical) && item.InStock then
    (true, .atlRestock stats.highest_historical stats.lowest_historical)
  else if claimSubBOrig stats.current_price stats.lowest_historical then
    (true, .deepDiscount stats.highest_historical stats.lowest_historical)
  else
    (false, .empty)

/-- Stage-1 gate of claim C1 as amended: the `current < 0` fallback applies
whenever `highest <= 0`, not only at `highest == 0`. -/
def claimStage1Amended (current highest : ℚ) : Bool :=
  if 0 < highest then decide (current < (1 / 2) * highest)
  else decide (current < 0)

/-- Sub-condition (b) of claim C1 as amended: when `lowest <= 0` it requires
`current < 0` together with `current < lowest`. -/
def claimSubBAmended (current lowest : ℚ) : Bool :=
  if 0 < lowest then decide (current ≤ lowest * (9 / 10))
  else decide (current < 0) && decide (current < lowest)

/-- Decision rule of claim C1 as amended. -/
def claimDecisionAmended (item : Item) (stats : PriceStatsR) : Bool × NotifyReason :=
  if claimStage1Amended stats.current_price stats.highest_historical = false then
    (false, .empty)
  else if decide (stats.current_price = stats.lowest_historical) && item.InStock then
    (true, .atlRestock stats.highest_historical stats.lowest_historical)
  else if claimSubBAmended stats.current_price stats.lowest_historical then
    (true, .deepDiscount stats.highest_historical stats.lowest_historical)
  else
    (false, .empty)

/-! ## Notification formatter: `_prepare_notification_details` (lines 544-578) -/

/-- Python `x.quantize(Decimal('0.01'))`: round to 2 decimal places with the
default `ROUND_HALF_EVEN` rounding of the decimal context. -/
def rnd_half_even (x : ℚ) : ℤ :=
  let f := ⌊x⌋
  let r := x - f
  if r < 1 / 2 then f
  else if 1 / 2 < r then f + 1
  else if f % 2 = 0 then f
  else f + 1

/-- Quantization of a value to cents, as `Decimal.quantize(Decimal('0.01'))`
does before the formatter renders it as a string. -/
def quantize2 (x : ℚ) : ℚ :=
  (rnd_half_even (100 * x) : ℚ) / 100

/-- Python `sorted(list(set(all_historical_prices)))` (line 561): the
ascending enumeration of the distinct values of the list. -/
def uniqueSorted (l : List ℚ) : List ℚ :=
  List.insertionSort (· ≤ ·) l.dedup

/-- Numeric and flag fields `_prepare_notification_details` adds to the item
before formatting.  The code renders each number as a fixed-2-decimal string;
the model keeps the quantized rational, and the string `"N/A"` placed in
`second_lowest_to_current_diff` / `discount_vs_average_percent` when no value
exists is modelled as `none`. -/
structure NotificationDetails where
  sku : Option String
  new_price : ℚ
  is_all_time_low : Bool
  reason : NotifyReason
  lowest_historical_price : ℚ
  highest_historical_price : ℚ
  average_historical_price : ℚ
  highest_to_current_diff : ℚ
  second_lowest_to_current_diff : Option ℚ
  discount_vs_average_percent : Option ℚ
deriving DecidableEq

/-- Function `_prepare_notification_details` (lines 544-578). -/
def _prepare_notification_details (item : Item) (stats : PriceStatsR) (reason : NotifyReason) :
    NotificationDetails :=
  let current := stats.current_price
  let lowest := stats.lowest_historical
  let highest := stats.highest_historical
  let average := stats.average_historical
  { sku := item.Sku
    new_price := quantize2 current
    is_all_time_low := decide (current ≤ lowest)
    reason := reason
    lowest_historical_price := quantize2 lowest
    highest_historical_price := quantize2 highest
    average_historical_price := quantize2 average
    highest_to_current_diff := quantize2 (highest - current)
    second_lowest_to_current_diff :=
      match (uniqueSorted stats.all_historical_prices)[1]? with
      | some v => some (quantize2 (v - current))
      | none => none
    discount_vs_average_percent :=
      if 0 < average then some (quantize2 ((average - current) / average * 100))
      else none }

/-! ## Cooldown store (lines 168-209 and 440-471) -/

/-- Configuration section `data_persistence`. -/
structure PersistenceConfig where
  enabled : Bool
  sku_fetch_cooldown_hours : ℤ
  max_sku_entries : ℕ
deriving DecidableEq

/-- SKU fetch-timestamp map: a Python dict in insertion order, each value the
parse result of the stored ISO string (`none` = unparseable). -/
abbrev TSMap := List (String × Option ℤ)

/-- Dictionary lookup: `sku_fetch_timestamps[sku]` / `sku in ...`. -/
def tsLookup : TSMap → String → Option (Option ℤ)
  | [], _ => none
  | (k, v) :: rest, sku => if k = sku then some v else tsLookup rest sku

/-- Dictionary assignment `sku_fetch_timestamps[sku] = value`: overwrite in
place when the key exists (keeping its position), else append. -/
def tsInsert : TSMap → String → Option ℤ → TSMap
  | [], sku, v => [(sku, v)]
  | (k, w) :: rest, sku, v =>
    if k = sku then (k, v) :: rest else (k, w) :: tsInsert rest sku v

/-- Cooldown gate inlined in `_fetch_sku_history_if_needed` (lines 445-454):
on cooldown iff persistence is enabled, the SKU has an entry, the entry
parses to `t`, and `now - t < timedelta(hours=cooldown_hours)`; an
unparseable entry falls through to a fetch. -/
def sku_on_cooldown (p : PersistenceConfig) (ts : TSMap) (sku : String) (now : ℤ) : Bool :=
  p.enabled &&
    match tsLookup ts sku with
    | some (some t) => decide (now - t < p.sku_fetch_cooldown_hours * 3600)
    | some none => false
    | none => false

/-- Sort key used by the pruning path: the parsed timestamp of an entry (only
applied to entries validated as parseable; `getD 0` is never reached on an
unparseable value there). -/
def tsKey (e : String × Option ℤ) : ℤ :=
  e.2.getD 0

/-- Comparison `datetime.fromisoformat(item[1]) <= datetime.fromisoformat(...)`
used by the pruning sort. -/
def tsLe (a b : String × Option ℤ) : Prop :=
  tsKey a ≤ tsKey b

instance : DecidableRel tsLe := fun a b => Int.decLe (tsKey a) (tsKey b)

instance : IsTotal (String × Option ℤ) tsLe :=
  ⟨fun a b => le_total (tsKey a) (tsKey b)⟩

instance : IsTrans (String × Option ℤ) tsLe :=
  ⟨fun _ _ _ h1 h2 => le_trans h1 h2⟩

/-- Keys deleted by the pruning path of `manage_sku_fetch_timestamps`
(lines 185-206): keep only the entries with parseable timestamps, sort them
ascending by timestamp, and take the keys of the first
`len(sorted) - max_entries` of them (a non-positive difference deletes
nothing, matching the `if num_to_prune > 0` guard).  Python's stable
`sorted` is modelled by `insertionSort` on the validated entries. -/
def pruneRemovedKeys (maxE : ℕ) (m : TSMap) : List String :=
  let sorted_skus := List.insertionSort tsLe (m.filter fun e => e.2.isSome)
  (sorted_skus.take (sorted_skus.length - maxE)).map Prod.fst

/-- Pruning entry point (lines 168-209): a no-op when persistence is
disabled or the entry count does not exceed `max_sku_entries`; otherwise
delete exactly the entries whose keys `pruneRemovedKeys` selects. -/
def manage_sku_fetch_timestamps (p : PersistenceConfig) (m : TSMap) : TSMap :=
  if p.enabled = false then m
  else if p.max_sku_entries < m.length then
    m.filter fun e => decide (e.1 ∉ pruneRemovedKeys p.max_sku_entries m)
  else m

/-! ## Delivery engine: `send_discord_webhook_message` (lines 273-334) -/

/-- Classification of `int(float(retry_after_header))` for a present,
non-empty `Retry-After` header value: `parsed n` when both conversions
succeed (Python `int()` truncates toward zero); `valueError` when `float()`
rejects the string or the float is a NaN (both raise `ValueError`, which the
code catches); `overflowNotCaught` when `float()` yields an infinity — for
example the header strings `inf`, `Infinity`, `-inf` or `9e999` — so that
`int()` raises `OverflowError`, an exception class the surrounding
`except ValueError` does not catch. -/
inductive RAParse
  | parsed (n : ℤ)
  | valueError
  | overflowNotCaught
deriving DecidableEq

/-- Outcome of one POST attempt, as classified by `_attempt_discord_request`
(lines 248-271): a non-raising response with its status code; a 429 carrying
the parse classification of its `Retry-After` header (`none` when the header
is absent or empty, both falsy at line 305); a timeout; another network
error; a non-429 HTTP error; or an unexpected exception class. -/
inductive AttemptOutcome
  | success (status : ℕ)
  | rateLimited (retryAfter : Option RAParse)
  | timeoutErr
  | requestErr
  | httpErr
  | unexpectedErr
deriving DecidableEq

/-- Observable result of `send_discord_webhook_message`: either the function
returns a boolean, or an exception escapes it (`raises`). -/
inductive SendOutcome
  | returns (b : Bool)
  | raises
deriving DecidableEq

/-- Loop body of `send_discord_webhook_message` (lines 289-334), iterating
`attempt` over `range(max_retries)`; `rem` is the number of loop iterations
left (`max_retries - attempt`), the structural recursion measure.  Returns
the outcome, the number of transport attempts made, and the list of sleep
durations in order.  The oracle gives each attempt's transport outcome. -/
def send_from (base : ℤ) (maxRetries : ℕ) (oracle : ℕ → AttemptOutcome) :
    ℕ → ℕ → SendOutcome × ℕ × List ℤ
  | _, 0 => (.returns false, 0, [])
  | attempt, rem + 1 =>
    match oracle attempt with
    | .success s =>
      if s = 200 ∨ s = 204 then (.returns true, 1, [])
      else (.returns false, 1, [])
    | .rateLimited ra =>
      match ra with
      | some .overflowNotCaught => (.raises, 1, [])
      | _ =>
        let wait : ℤ :=
          match ra with
          | some (.parsed n) => n + 1
          | _ => base * 2 ^ attempt
        if attempt + 1 < maxRetries then
          let next := send_from base maxRetries oracle (attempt + 1) rem
          (next.1, next.2.1 + 1, wait :: next.2.2)
        else (.returns false, 1, [])
    | .timeoutErr | .requestErr =>
      if attempt + 1 < maxRetries then
        let next := send_from base maxRetries oracle (attempt + 1) rem
        (next.1, next.2.1 + 1, (base * 2 ^ attempt) :: next.2.2)
      else (.returns false, 1, [])
    | .httpErr => (.returns false, 1, [])
    | .unexpectedErr => (.returns false, 1, [])

/-- Function `send_discord_webhook_message` (lines 273-334) for a configured
webhook URL: run the attempt loop from attempt 0. -/
def send_discord_webhook_message (base : ℤ) (maxRetries : ℕ) (oracle : ℕ → AttemptOutcome) :
    SendOutcome × ℕ × List ℤ :=
  send_from base maxRetries oracle 0 maxRetries

/-! ## Per-item processing and the cycle (lines 440-471, 580-649) -/

/-- Function `_fetch_sku_history_if_needed` (lines 440-471): skip the fetch
while on cooldown; skip it when no history URL is configured; otherwise ask
the transport, and on a truthy JSON with persistence enabled overwrite the
SKU's fetch timestamp with `now`.  Returns the JSON (or `none`), the updated
map, and whether a fetch request was issued. -/
def _fetch_sku_history_if_needed (p : PersistenceConfig) (histUrlCfg : Bool)
    (envHist : String → Option HistoryJson) (sku : String) (now : ℤ) (ts : TSMap) :
    Option HistoryJson × TSMap × Bool :=
  if sku_on_cooldown p ts sku now then (none, ts, false)
  else if histUrlCfg = false then (none, ts, false)
  else
    match envHist sku with
    | some hj =>
      if hj.truthy && p.enabled then (some hj, tsInsert ts sku (some now), true)
      else (some hj, ts, true)
    | none => (none, ts, true)

/-- Function `process_item_history` (lines 580-602): a missing or empty
`Sku` skips the item; otherwise fetch history (cooldown-gated), compute
statistics, check eligibility, and build the notification details when
eligible.  Returns the notification (if any), the updated timestamp map, and
the list (empty or singleton) of SKUs for which a fetch request was issued. -/
def process_item_history (p : PersistenceConfig) (histUrlCfg : Bool)
    (envHist : String → Option HistoryJson) (now : ℤ) (item : Item) (ts : TSMap) :
    Option NotificationDetails × TSMap × List String :=
  match item.Sku with
  | none => (none, ts, [])
  | some sku =>
    if sku = "" then (none, ts, [])
    else
      let fr := _fetch_sku_history_if_needed p histUrlCfg envHist sku now ts
      let notif : Option NotificationDetails :=
        match fr.1 with
        | none => none
        | some hj =>
          match _calculate_price_stats hj.oneP item.NewPrice with
          | none => none
          | some stats =>
            let d := _check_notification_conditions item stats
            if d.1 then some (_prepare_notification_details item stats d.2) else none
      (notif, fr.2.1, if fr.2.2 then [sku] else [])

/-- Item loop of `check_prices` (lines 631-638), processing the batch
strictly sequentially and threading the timestamp map; the fixed
`request_delay_seconds` sleep between items has no observable effect in the
model.  Returns the notifications collected, the SKUs fetched, and the final
map. -/
def process_items (p : PersistenceConfig) (histUrlCfg : Bool)
    (envHist : String → Option HistoryJson) (now : ℤ) :
    List Item → TSMap → List NotificationDetails × List String × TSMap
  | [], ts => ([], [], ts)
  | item :: rest, ts =>
    let r := process_item_history p histUrlCfg envHist now item ts
    let tail := process_items p histUrlCfg envHist now rest r.2.1
    ((match r.1 with | some d => d :: tail.1 | none => tail.1),
      r.2.2 ++ tail.2.1, tail.2.2)

/-- Upstream responses for one cycle: the total-count read (`none` = the
request failed or the JSON had no usable `total_count`), the item-batch read
(`none` = failure), and the per-SKU history read. -/
structure CycleEnv where
  total_count : Option ℤ
  items : Option (List Item)
  history : String → Option HistoryJson

/-- Function `get_all_items` (lines 421-437): rejects a non-positive total
count, then returns the batch the transport produced (or `none` on a
transport/JSON failure). -/
def get_all_items (total : ℤ) (env : CycleEnv) : Option (List Item) :=
  if total ≤ 0 then none else env.items

/-- Observable trace of one `check_prices` run: each call to
`save_sku_fetch_timestamps` with the map it saved, the SKUs for which a
history fetch was issued, and the notifications queued for delivery. -/
structure CycleResult where
  saved : List TSMap
  fetched : List String
  notifs : List NotificationDetails
deriving DecidableEq

/-- Function `check_prices` (lines 605-649), run after a successful
`load_config` (so the `monitoring` section exists): load the map (empty when
persistence is disabled), abort early — still saving — when the total-count
or item-batch read fails, otherwise process every item, prune, save once,
and queue the collected notifications. -/
def check_prices (p : PersistenceConfig) (histUrlCfg : Bool) (env : CycleEnv) (now : ℤ)
    (m0 : TSMap) : CycleResult :=
  let ts0 := if p.enabled then m0 else []
  match env.total_count with
  | none => { saved := [ts0], fetched := [], notifs := [] }
  | some total =>
    match get_all_items total env with
    | none => { saved := [ts0], fetched := [], notifs := [] }
    | some items =>
      let r := process_items p histUrlCfg env.history now items ts0
      let ts2 := manage_sku_fetch_timestamps p r.2.2
      { saved := [ts2], fetched := r.2.1, notifs := r.1 }

/-! ## Claim C3: the numeric normalizer -/

theorem cleanChars_succ (cs : List Char) : ∀ (i : ℕ) (hasDot : Bool),
    cleanChars cs (i + 1) hasDot = keepDigitsFirstDot cs hasDot := by
  induction cs with
  | nil => intro i hasDot; rfl
  | cons c rest ih =>
    intro i hasDot
    simp only [cleanChars, keepDigitsFirstDot]
    by_cases hd : c.isDigit
    · simp [hd, ih]
    · simp only [hd, if_false, Bool.false_eq_true]
      by_cases hdot : c = '.' ∧ hasDot = false
      · simp [hdot, ih]
      · have hminus : ¬(c = '-' ∧ i + 1 = 0) := by
          rintro ⟨_, h⟩
          omega
        simp [hdot, hminus, ih]

theorem cleanChars_zero (cs : List Char) : cleanChars cs 0 false = specClean cs := by
  cases cs with
  | nil => rfl
  | cons c rest =>
    simp only [cleanChars, specClean, List.head?, List.tail]
    by_cases hm : c = '-'
    · subst hm
      have hd : ('-' : Char).isDigit = false := by decide
      have hdot : ¬(('-' : Char) = '.' ∧ false = false) := by decide
      simp [hd, hdot, cleanChars_succ]
    · have hm2 : (some c = some '-') = False := by simp [hm]
      simp only [hm2, if_false]
      simp only [keepDigitsFirstDot]
      by_cases hd : c.isDigit
      · simp [hd, cleanChars_succ]
      · simp only [hd, if_false, Bool.false_eq_true]
        by_cases hdot : c = '.' ∧ (false : Bool) = false
        · simp [hdot, cleanChars_succ]
        · have hminus : ¬(c = '-' ∧ (0 : ℕ) = 0) := by
            rintro ⟨h, _⟩
            exact hm h
          simp [hdot, hminus, hm, cleanChars_succ]

/-- C3 counterexample: on the input `" -5"` (a space, then `-5`) the code
strips the whitespace first and keeps the `-`, producing `-5`, while the
claim's scan discards the space and then discards the `-` because it is not
the very first character, producing `5`. -/
theorem c3_counterexample :
    safe_decimal (some " -5") = -5 ∧ normalize_claim (some " -5") = 5 := by
  have h1 : pyStrip (" -5".data) = ['-', '5'] := by decide
  have h2 : cleanedOf " -5" = ['-', '5'] := by decide
  have h3 : parseParts ['-', '5'] = some (true, ['5'], []) := by decide
  have h4 : specClean (" -5".data) = ['5'] := by decide
  have h5 : parseParts ['5'] = some (false, ['5'], []) := by decide
  have h6 : digitsVal ['5'] = 5 := by decide
  have h7 : digitsVal [] = 0 := by decide
  have hblank : (" -5".data.all Char.isWhitespace) = false := by decide
  have c0 : ((['-', '5'] : List Char) = []) = False := eq_false (by decide)
  have c1 : ((['-', '5'] : List Char) = [] ∨ (['-', '5'] : List Char) = ['-']) = False :=
    eq_false (by decide)
  have c2 : ((['5'] : List Char) = [] ∨ (['5'] : List Char) = ['-']) = False :=
    eq_false (by decide)
  constructor
  · simp only [safe_decimal, h1, h2, c0, c1, if_false, parseCleaned, h3, Option.map_some']
    norm_num [decValue, h6, h7]
  · simp only [normalize_claim, hblank, h4, c2, if_false, parseCleaned, h5, Option.map_some',
      Bool.false_eq_true]
    norm_num [decValue, h6, h7]

/-- C3 as amended: `safe_decimal` is total (it is a function into `ℚ`),
returns `0.00` for missing or blank input, and otherwise equals the claimed
left-to-right digit / first-dot / leading-minus scan — with the single
amendment that the scan runs over the whitespace-stripped string, so the `-`
is kept exactly when it is the first character after surrounding whitespace
is removed. -/
theorem c3_safe_decimal_amended (value : Option String) :
    safe_decimal value = normalize_amended value := by
  match value with
  | none => rfl
  | some s =>
    have h : cleanedOf s = specClean (pyStrip s.data) := cleanChars_zero (pyStrip s.data)
    simp only [safe_decimal, normalize_amended, h]

/-! ## Claim C1: the eligibility rule -/

theorem base50_eq_claimAmended (current highest : ℚ) :
    condition_base_50_percent current highest = claimStage1Amended current highest := by
  unfold condition_base_50_percent claimStage1Amended
  by_cases h : 0 < highest
  · simp [h]
  · simp only [h, if_false]
    by_cases h2 : current < 0
    · simp [h2]
    · simp [h2]

theorem sub2b_eq_claimAmended (current lowest : ℚ) :
    sub_condition_2b current lowest = claimSubBAmended current lowest := by
  unfold sub_condition_2b claimSubBAmended
  by_cases h : 0 < lowest
  · simp [h]
  · simp only [h, if_false]
    by_cases h2 : current < 0
    · simp [h2]
    · simp [h2]

/-- C1 counterexample: at `current = -2`, `lowest = highest = -1` (reachable
from the single-point history `[-1]` with current price `-2`), no clause of
the claim's stage 1 applies (`highest` is neither positive nor zero), so the
claim mandates (no-notify, empty reason); the code's stage-1 fallback fires
on `current < 0` and its sub-condition (b) fallback on
`current < 0 ∧ current < lowest`, so the code notifies with (b)'s reason. -/
theorem c1_counterexample :
    _check_notification_conditions ⟨some "X", some "-2", false⟩
        ⟨-2, -1, -1, -1, [-1]⟩ = (true, .deepDiscount (-1) (-1))
    ∧ claimDecisionOrig ⟨some "X", some "-2", false⟩
        ⟨-2, -1, -1, -1, [-1]⟩ = (false, .empty) := by
  constructor
  · unfold _check_notification_conditions condition_base_50_percent sub_condition_2b
    norm_num
  · unfold claimDecisionOrig claimStage1Orig
    norm_num

/-- C1 as amended: the decision function notifies exactly by the claimed
two-stage rule, with two clause amendments forced by the counterexample —
stage 1's `current < 0` fallback applies whenever `highest <= 0` (not only
at `highest == 0`), and sub-condition (b)'s fallback requires
`current < 0 ∧ current < lowest` whenever `lowest <= 0` (not only at
`lowest == 0`).  Stage-1 failure yields (no-notify, empty reason) with no
further evaluation, and when (a) and (b) both hold the returned reason is
(a)'s ATL-restock reason, since (a) is evaluated first. -/
theorem c1_decision_amended (item : Item) (stats : PriceStatsR) :
    _check_notification_conditions item stats = claimDecisionAmended item stats := by
  unfold _check_notification_conditions claimDecisionAmended
  rw [base50_eq_claimAmended, sub2b_eq_claimAmended]

/-! ## Claim C2: lowest <= average <= highest -/

theorem foldl_min_le_init (xs : List ℚ) : ∀ a : ℚ, xs.foldl min a ≤ a := by
  induction xs with
  | nil => intro a; simp
  | cons x xs ih =>
    intro a
    exact le_trans (ih (min a x)) (min_le_left a x)

theorem foldl_min_le_mem (xs : List ℚ) : ∀ (a x : ℚ), x ∈ xs → xs.foldl min a ≤ x := by
  induction xs with
  | nil =>
    intro a x hx
    cases hx
  | cons y ys ih =>
    intro a x hx
    rcases List.mem_cons.mp hx with h | h
    · subst h
      exact le_trans (foldl_min_le_init ys (min a x)) (min_le_right a x)
    · exact ih (min a y) x h

theorem init_le_foldl_max (xs : List ℚ) : ∀ a : ℚ, a ≤ xs.foldl max a := by
  induction xs with
  | nil => intro a; simp
  | cons x xs ih =>
    intro a
    exact le_trans (le_max_left a x) (ih (max a x))

theorem mem_le_foldl_max (xs : List ℚ) : ∀ (a x : ℚ), x ∈ xs → x ≤ xs.foldl max a := by
  induction xs with
  | nil =>
    intro a x hx
    cases hx
  | cons y ys ih =>
    intro a x hx
    rcases List.mem_cons.mp hx with h | h
    · subst h
      exact le_trans (le_max_right a x) (init_le_foldl_max ys (max a x))
    · exact ih (max a y) x h

theorem pyMin_le (l : List ℚ) (x : ℚ) (hx : x ∈ l) : pyMin l ≤ x := by
  match l with
  | y :: ys =>
    rcases List.mem_cons.mp hx with h | h
    · subst h
      exact foldl_min_le_init ys x
    · exact foldl_min_le_mem ys y x h

theorem le_pyMax (l : List ℚ) (x : ℚ) (hx : x ∈ l) : x ≤ pyMax l := by
  match l with
  | y :: ys =>
    rcases List.mem_cons.mp hx with h | h
    · subst h
      exact init_le_foldl_max ys x
    · exact mem_le_foldl_max ys y x h

theorem foldl_min_mem (xs : List ℚ) : ∀ a : ℚ, xs.foldl min a = a ∨ xs.foldl min a ∈ xs := by
  induction xs with
  | nil =>
    intro a
    left
    rfl
  | cons x xs ih =>
    intro a
    rcases ih (min a x) with h | h
    · rcases min_choice a x with hc | hc
      · left
        rw [List.foldl_cons, h, hc]
      · right
        rw [List.foldl_cons, h, hc]
        exact List.mem_cons_self x xs
    · right
      exact List.mem_cons_of_mem x h

theorem foldl_max_mem (xs : List ℚ) : ∀ a : ℚ, xs.foldl max a = a ∨ xs.foldl max a ∈ xs := by
  induction xs with
  | nil =>
    intro a
    left
    rfl
  | cons x xs ih =>
    intro a
    rcases ih (max a x) with h | h
    · rcases max_choice a x with hc | hc
      · left
        rw [List.foldl_cons, h, hc]
      · right
        rw [List.foldl_cons, h, hc]
        exact List.mem_cons_self x xs
    · right
      exact List.mem_cons_of_mem x h

theorem pyMin_mem (l : List ℚ) (hl : l ≠ []) : pyMin l ∈ l := by
  match l with
  | y :: ys =>
    rcases foldl_min_mem ys y with h | h
    · rw [pyMin, h]
      exact List.mem_cons_self y ys
    · exact List.mem_cons_of_mem y h

theorem pyMax_mem (l : List ℚ) (hl : l ≠ []) : pyMax l ∈ l := by
  match l with
  | y :: ys =>
    rcases foldl_max_mem ys y with h | h
    · rw [pyMax, h]
      exact List.mem_cons_self y ys
    · exact List.mem_cons_of_mem y h

theorem mul_len_le_sum (l : List ℚ) (c : ℚ) (h : ∀ x ∈ l, c ≤ x) :
    c * (l.length : ℚ) ≤ l.sum := by
  induction l with
  | nil => simp
  | cons x xs ih =>
    have hx : c ≤ x := h x (List.mem_cons_self x xs)
    have hxs : c * (xs.length : ℚ) ≤ xs.sum := ih fun y hy => h y (List.mem_cons_of_mem x hy)
    simp only [List.length_cons, List.sum_cons, Nat.cast_add, Nat.cast_one]
    nlinarith

theorem sum_le_mul_len (l : List ℚ) (c : ℚ) (h : ∀ x ∈ l, x ≤ c) :
    l.sum ≤ c * (l.length : ℚ) := by
  induction l with
  | nil => simp
  | cons x xs ih =>
    have hx : x ≤ c := h x (List.mem_cons_self x xs)
    have hxs : xs.sum ≤ c * (xs.length : ℚ) := ih fun y hy => h y (List.mem_cons_of_mem x hy)
    simp only [List.length_cons, List.sum_cons, Nat.cast_add, Nat.cast_one]
    nlinarith

/-- C2: whenever `_calculate_price_stats` returns statistics (the historical
series was non-empty), the exact-arithmetic mean of all normalized values
lies between the minimum and the maximum of those values. -/
theorem c2_lowest_le_average_le_highest (oneP : List (Option String))
    (cur : Option String) (s : PriceStatsR)
    (h : _calculate_price_stats oneP cur = some s) :
    s.lowest_historical ≤ s.average_historical
      ∧ s.average_historical ≤ s.highest_historical := by
  simp only [_calculate_price_stats] at h
  by_cases he : oneP.filterMap id = []
  · rw [if_pos he] at h
    cases h
  · rw [if_neg he] at h
    have hm : (oneP.filterMap id).map (fun p => safe_decimal (some p)) ≠ [] := by
      simpa using he
    rw [if_neg hm, if_neg hm] at h
    set vals := (oneP.filterMap id).map (fun p => safe_decimal (some p)) with hvals
    have hlenpos : 0 < (vals.length : ℚ) := by
      have := List.length_pos.mpr hm
      exact_mod_cast this
    have hlow : s.lowest_historical = pyMin vals := by
      rw [← Option.some.inj h]
    have hhigh : s.highest_historical = pyMax vals := by
      rw [← Option.some.inj h]
    have havg : s.average_historical = vals.sum / (vals.length : ℚ) := by
      rw [← Option.some.inj h]
    rw [hlow, hhigh, havg]
    constructor
    · rw [le_div_iff₀ hlenpos]
      exact mul_len_le_sum vals (pyMin vals) fun x hx => pyMin_le vals x hx
    · rw [div_le_iff₀ hlenpos]
      exact sum_le_mul_len vals (pyMax vals) fun x hx => le_pyMax vals x hx

theorem safe_decimal_ten : safe_decimal (some "10") = 10 := by
  have hp : parseParts (cleanedOf "10") = some (false, ['1', '0'], []) := by decide
  have hd : digitsVal ['1', '0'] = 10 := by decide
  have hd0 : digitsVal [] = 0 := by decide
  have c0 : (pyStrip ("10".data) = []) = False := eq_false (by decide)
  have c1 : (cleanedOf "10" = [] ∨ cleanedOf "10" = ['-']) = False := eq_false (by decide)
  simp only [safe_decimal, c0, c1, if_false, parseCleaned, hp, Option.map_some']
  norm_num [decValue, hd, hd0]

/-- C2 witness: the single-observation history `["10"]` yields statistics,
and the theorem instantiates to `10 <= 10 <= 10` on them. -/
theorem c2_witness :
    ∃ s, _calculate_price_stats [some "10"] (some "10") = some s
      ∧ s.lowest_historical ≤ s.average_historical
      ∧ s.average_historical ≤ s.highest_historical := by
  have hf : List.filterMap id [some "10"] = ["10"] := by decide
  have h : _calculate_price_stats [some "10"] (some "10")
      = some ⟨10, 10, 10, 10, [10]⟩ := by
    simp only [_calculate_price_stats, hf, List.map, safe_decimal_ten]
    norm_num [pyMin, pyMax]
  exact ⟨_, h, c2_lowest_le_average_le_highest _ _ _ h⟩

/-! ## Claim C5: the statistics computation and second-lowest-distinct -/

theorem calc_stats_eq_none_iff (oneP : List (Option String)) (cur : Option String) :
    _calculate_price_stats oneP cur = none ↔ oneP.filterMap id = [] := by
  simp only [_calculate_price_stats]
  by_cases he : oneP.filterMap id = []
  · simp [he]
  · have hm : (oneP.filterMap id).map (fun p => safe_decimal (some p)) ≠ [] := by
      simpa using he
    simp [he, hm]

theorem uniqueSorted_sorted_lt (l : List ℚ) : (uniqueSorted l).Sorted (· < ·) := by
  have hs : (uniqueSorted l).Sorted (· ≤ ·) := List.sorted_insertionSort _ _
  have hnd : (uniqueSorted l).Nodup :=
    (List.perm_insertionSort (· ≤ ·) l.dedup).symm.nodup (List.nodup_dedup l)
  exact List.Pairwise.imp (fun h => lt_of_le_of_ne h.1 h.2) (List.Pairwise.and hs hnd)

theorem mem_uniqueSorted (l : List ℚ) (x : ℚ) : x ∈ uniqueSorted l ↔ x ∈ l := by
  unfold uniqueSorted
  rw [(List.perm_insertionSort (· ≤ ·) l.dedup).mem_iff, List.mem_dedup]

/-- C5: `_calculate_price_stats` returns `none` exactly when the series is
empty after extraction; otherwise `lowest`/`highest` are the minimum and
maximum of the normalized values, `average` is their exact mean, and
`current` their normalized current price; the formatter's second-lowest
field is index 1 of the ascending sequence of distinct normalized values
(`none`, rendered `"N/A"`, exactly when that sequence is shorter than 2);
and an item whose fetched history extracts to an empty series produces no
notification (it is skipped, not an error). -/
theorem c5_statistics (oneP : List (Option String)) (cur : Option String) :
    (_calculate_price_stats oneP cur = none ↔ oneP.filterMap id = [])
    ∧ (∀ s, _calculate_price_stats oneP cur = some s →
        s.all_historical_prices = (oneP.filterMap id).map (fun p => safe_decimal (some p))
        ∧ s.current_price = safe_decimal cur
        ∧ s.lowest_historical ∈ s.all_historical_prices
        ∧ (∀ x ∈ s.all_historical_prices, s.lowest_historical ≤ x)
        ∧ s.highest_historical ∈ s.all_historical_prices
        ∧ (∀ x ∈ s.all_historical_prices, x ≤ s.highest_historical)
        ∧ s.average_historical
            = s.all_historical_prices.sum / (s.all_historical_prices.length : ℚ))
    ∧ (∀ (item : Item) (stats : PriceStatsR) (reason : NotifyReason),
        ∃ u : List ℚ,
          u.Sorted (· < ·)
          ∧ (∀ x : ℚ, x ∈ u ↔ x ∈ stats.all_historical_prices)
          ∧ (_prepare_notification_details item stats reason).second_lowest_to_current_diff
              = (u[1]?).map (fun v => quantize2 (v - stats.current_price))
          ∧ ((_prepare_notification_details item stats
                reason).second_lowest_to_current_diff = none
              ↔ u.length < 2))
    ∧ (∀ (p : PersistenceConfig) (histUrlCfg : Bool)
        (envHist : String → Option HistoryJson) (now : ℤ) (item : Item) (ts : TSMap)
        (sku : String) (hj : HistoryJson),
        item.Sku = some sku →
        envHist sku = some hj →
        hj.oneP.filterMap id = [] →
        (process_item_history p histUrlCfg envHist now item ts).1 = none) := by
  refine ⟨calc_stats_eq_none_iff oneP cur, ?_, ?_, ?_⟩
  · intro s h
    simp only [_calculate_price_stats] at h
    by_cases he : oneP.filterMap id = []
    · rw [if_pos he] at h
      cases h
    · rw [if_neg he] at h
      have hm : (oneP.filterMap id).map (fun p => safe_decimal (some p)) ≠ [] := by
        simpa using he
      rw [if_neg hm, if_neg hm] at h
      set vals := (oneP.filterMap id).map (fun p => safe_decimal (some p)) with hvals
      have hall : s.all_historical_prices = vals := by
        rw [← Option.some.inj h]
      have hcur : s.current_price = safe_decimal cur := by
        rw [← Option.some.inj h]
      have hlow : s.lowest_historical = pyMin vals := by
        rw [← Option.some.inj h]
      have hhigh : s.highest_historical = pyMax vals := by
        rw [← Option.some.inj h]
      have havg : s.average_historical = vals.sum / (vals.length : ℚ) := by
        rw [← Option.some.inj h]
      refine ⟨hall, hcur, ?_, ?_, ?_, ?_, ?_⟩
      · rw [hall, hlow]
        exact pyMin_mem vals hm
      · intro x hx
        rw [hlow]
        exact pyMin_le vals x (hall ▸ hx)
      · rw [hall, hhigh]
        exact pyMax_mem vals hm
      · intro x hx
        rw [hhigh]
        exact le_pyMax vals x (hall ▸ hx)
      · rw [havg, hall]
  · intro item stats reason
    refine ⟨uniqueSorted stats.all_historical_prices, uniqueSorted_sorted_lt _,
      fun x => mem_uniqueSorted _ x, ?_, ?_⟩
    · simp only [_prepare_notification_details]
      cases h : (uniqueSorted stats.all_historical_prices)[1]? with
      | none => simp [h]
      | some v => simp [h]
    · simp only [_prepare_notification_details]
      cases h : (uniqueSorted stats.all_historical_prices)[1]? with
      | none =>
        simp only [h]
        have := List.getElem?_eq_none_iff.mp h
        constructor
        · intro _
          omega
        · intro _
          trivial
      | some v =>
        simp only [h]
        have hlt : 1 < (uniqueSorted stats.all_historical_prices).length := by
          by_contra hc
          rw [List.getElem?_eq_none_iff.mpr (by omega)] at h
          cases h
        constructor
        · intro hcon
          cases hcon
        · intro hlen
          omega
  · intro p histUrlCfg envHist now item ts sku hj hsku henv hempty
    have hstats : ∀ c, _calculate_price_stats hj.oneP c = none := fun c =>
      (calc_stats_eq_none_iff hj.oneP c).mpr hempty
    simp only [process_item_history, hsku, _fetch_sku_history_if_needed, henv]
    by_cases he : sku = ""
    · simp [he]
    · by_cases hcd : sku_on_cooldown p ts sku now = true
      · simp [he, hcd]
      · by_cases hcfg : histUrlCfg = false
        · simp [he, hcd, hcfg]
        · by_cases ht : (hj.truthy && p.enabled) = true
          · simp [he, hcd, hcfg, ht, hstats]
          · simp [he, hcd, hcfg, ht, hstats]

theorem safe_decimal_hundred : safe_decimal (some "100") = 100 := by
  have hp : parseParts (cleanedOf "100") = some (false, ['1', '0', '0'], []) := by decide
  have hd : digitsVal ['1', '0', '0'] = 100 := by decide
  have hd0 : digitsVal [] = 0 := by decide
  have c0 : (pyStrip ("100".data) = []) = False := eq_false (by decide)
  have c1 : (cleanedOf "100" = [] ∨ cleanedOf "100" = ['-']) = False := eq_false (by decide)
  simp only [safe_decimal, c0, c1, if_false, parseCleaned, hp, Option.map_some']
  norm_num [decValue, hd, hd0]

/-- C5 witness: a two-observation history with distinct values, plus an item
with an empty fetched history that is skipped. -/
theorem c5_witness :
    (∃ s, _calculate_price_stats [some "10", some "100"] (some "10") = some s
      ∧ s.lowest_historical ∈ s.all_historical_prices
      ∧ (∀ x ∈ s.all_historical_prices, s.lowest_historical ≤ x))
    ∧ (process_item_history ⟨true, 24, 1000⟩ true (fun _ => some ⟨[], true⟩) 0
        ⟨some "A", some "10", true⟩ []).1 = none := by
  have hf : List.filterMap id [some "10", some "100"] = ["10", "100"] := by decide
  have h : _calculate_price_stats [some "10", some "100"] (some "10")
      = some ⟨10, 10, 100, 55, [10, 100]⟩ := by
    simp only [_calculate_price_stats, hf, List.map, safe_decimal_ten, safe_decimal_hundred]
    norm_num [pyMin, pyMax]
    exact ⟨by simp, by simp⟩
  constructor
  · exact ⟨_, h, ((c5_statistics _ _).2.1 _ h).2.2.1, ((c5_statistics _ _).2.1 _ h).2.2.2.1⟩
  · exact (c5_statistics [] none).2.2.2 ⟨true, 24, 1000⟩ true _ 0 _ [] "A" ⟨[], true⟩
      rfl rfl (by decide)

/-! ## Claim C6: the cooldown gate -/

theorem tsLookup_tsInsert_self (ts : TSMap) (k : String) (v : Option ℤ) :
    tsLookup (tsInsert ts k v) k = some v := by
  induction ts with
  | nil => simp [tsInsert, tsLookup]
  | cons e rest ih =>
    obtain ⟨a, b⟩ := e
    by_cases h : a = k
    · simp [tsInsert, tsLookup, h]
    · simp [tsInsert, tsLookup, h, ih]

/-- C6: a SKU is on cooldown iff persistence is enabled and an entry with a
parseable timestamp `t` exists with `now - t < cooldown_hours * 3600`; an
entry recorded at `T` is on cooldown one second before the window closes and
off cooldown one second after; an unparseable entry counts as not on
cooldown; with persistence disabled the gate is a no-op; and (given a
configured history URL) a fetch is issued exactly when the SKU is not on
cooldown. -/
theorem c6_cooldown (p : PersistenceConfig) (ts : TSMap) (sku : String) (now T : ℤ)
    (histUrlCfg : Bool) (envHist : String → Option HistoryJson) :
    (sku_on_cooldown p ts sku now = true ↔
      p.enabled = true ∧ ∃ t : ℤ, tsLookup ts sku = some (some t)
        ∧ now - t < p.sku_fetch_cooldown_hours * 3600)
    ∧ (p.enabled = true →
        sku_on_cooldown p (tsInsert ts sku (some T)) sku
            (T + p.sku_fetch_cooldown_hours * 3600 - 1) = true
        ∧ sku_on_cooldown p (tsInsert ts sku (some T)) sku
            (T + p.sku_fetch_cooldown_hours * 3600 + 1) = false)
    ∧ (tsLookup ts sku = some none → sku_on_cooldown p ts sku now = false)
    ∧ (p.enabled = false → sku_on_cooldown p ts sku now = false)
    ∧ (histUrlCfg = true →
        ((_fetch_sku_history_if_needed p histUrlCfg envHist sku now ts).2.2 = true
          ↔ sku_on_cooldown p ts sku now = false)) := by
  refine ⟨?_, ?_, ?_, ?_, ?_⟩
  · unfold sku_on_cooldown
    cases hl : tsLookup ts sku with
    | none => simp [hl]
    | some o =>
      cases o with
      | none => simp [hl]
      | some t => simp [hl]
  · intro hen
    have hl := tsLookup_tsInsert_self ts sku (some T)
    unfold sku_on_cooldown
    rw [hl]
    constructor
    · simp only [hen, Bool.true_and, decide_eq_true_eq]
      omega
    · simp only [hen, Bool.true_and, decide_eq_false_iff_not]
      omega
  · intro hl
    unfold sku_on_cooldown
    rw [hl]
    simp
  · intro hen
    unfold sku_on_cooldown
    simp [hen]
  · intro hcfg
    subst hcfg
    unfold _fetch_sku_history_if_needed
    by_cases hcd : sku_on_cooldown p ts sku now = true
    · simp [hcd]
    · rw [if_neg hcd]
      simp only [Bool.not_eq_true] at hcd
      cases henv : envHist sku with
      | none => simp [hcd]
      | some hj =>
        by_cases ht : (hj.truthy && p.enabled) = true
        · simp [ht, hcd]
        · simp [ht, hcd]

/-- C6 witness: a SKU recorded at time 0 with a 24-hour cooldown is on
cooldown at 24h - 1s and off cooldown at 24h + 1s. -/
theorem c6_witness :
    sku_on_cooldown ⟨true, 24, 1000⟩ (tsInsert [] "A" (some 0)) "A" (0 + 24 * 3600 - 1) = true
    ∧ sku_on_cooldown ⟨true, 24, 1000⟩ (tsInsert [] "A" (some 0)) "A"
        (0 + 24 * 3600 + 1) = false :=
  (c6_cooldown ⟨true, 24, 1000⟩ [] "A" 0 0 true (fun _ => none)).2.1 rfl

/-! ## Claim C10: items with a missing or empty SKU -/

/-- C10: an item whose `Sku` field is missing or empty is skipped silently —
no notification, no fetch request, and an unchanged timestamp map. -/
theorem c10_missing_sku_skipped (p : PersistenceConfig) (histUrlCfg : Bool)
    (envHist : String → Option HistoryJson) (now : ℤ) (item : Item) (ts : TSMap)
    (h : item.Sku = none ∨ item.Sku = some "") :
    process_item_history p histUrlCfg envHist now item ts = (none, ts, []) := by
  rcases h with h | h <;> simp [process_item_history, h]

/-- C10 witness: an item with an empty SKU string is skipped with no side
effects even though history data would be available for it. -/
theorem c10_witness :
    process_item_history ⟨true, 24, 1000⟩ true (fun _ => some ⟨[some "1"], true⟩) 0
      ⟨some "", some "5", true⟩ [] = (none, [], []) :=
  c10_missing_sku_skipped ⟨true, 24, 1000⟩ true (fun _ => some ⟨[some "1"], true⟩) 0
    ⟨some "", some "5", true⟩ [] (Or.inr rfl)

/-! ## Claim C4: the delivery engine and the Retry-After overflow escape -/

/-- C4 (code bug): when a rate-limited response carries a `Retry-After`
header that `float()` accepts but `int()` overflows on — such as `inf` or
`9e999` — the conversion `int(float(retry_after_header))` at line 307 raises
`OverflowError` inside the `except DiscordWebhookRateLimitError` handler;
the inner `except ValueError` at line 309 does not catch it, and no handler
of the same `try` statement applies to an exception raised inside a handler,
so the exception escapes `send_discord_webhook_message` on the very first
attempt, contradicting the claimed boolean-only, never-raising boundary. -/
theorem c4_retry_after_overflow_raises :
    send_discord_webhook_message 5 3 (fun _ => .rateLimited (some .overflowNotCaught))
      = (.raises, 1, []) := rfl

/-! ## Claim C7: pruning the cooldown map -/

theorem prune_branch_facts (m : TSMap) (N k : ℕ)
    (hnd : (m.map Prod.fst).Nodup)
    (hall : ∀ e ∈ m, e.2.isSome = true)
    (hinj : ∀ a ∈ m, ∀ b ∈ m, a ≠ b → tsKey a ≠ tsKey b)
    (hlen : m.length = N + k) :
    (m.filter fun e2 => decide (e2.1 ∉ pruneRemovedKeys N m)).length = N
    ∧ (∀ e ∈ m.filter fun e2 => decide (e2.1 ∉ pruneRemovedKeys N m), e ∈ m)
    ∧ (∀ e ∈ m, (e ∉ m.filter fun e2 => decide (e2.1 ∉ pruneRemovedKeys N m)) →
        ∀ e2 ∈ m.filter fun e2 => decide (e2.1 ∉ pruneRemovedKeys N m),
          tsKey e < tsKey e2) := by
  set s := List.insertionSort tsLe m with hs
  have hperm : s.Perm m := by
    rw [hs]
    exact List.perm_insertionSort tsLe m
  have hslen : s.length = N + k := by rw [hperm.length_eq, hlen]
  have hmnd : m.Nodup := List.Nodup.of_map Prod.fst hnd
  have hsnd : s.Nodup := hperm.symm.nodup hmnd
  have hpair : List.Pairwise tsLe s := by
    rw [hs]
    exact List.sorted_insertionSort tsLe m
  have hsplit : s.take k ++ s.drop k = s := List.take_append_drop k s
  have htd : ∀ a ∈ s.take k, ∀ b ∈ s.drop k, tsLe a b := by
    have hp := hpair
    rw [← hsplit] at hp
    exact (List.pairwise_append.mp hp).2.2
  have hdisj : List.Disjoint (s.take k) (s.drop k) := by
    have hp := hsnd
    rw [← hsplit] at hp
    exact (List.nodup_append.mp hp).2.2
  have hrkey : ∀ e ∈ m, (e.1 ∈ (s.take k).map Prod.fst ↔ e ∈ s.take k) := by
    intro e he
    constructor
    · intro hk1
      obtain ⟨f, hf, hfe⟩ := List.mem_map.mp hk1
      have hfm : f ∈ m := hperm.mem_iff.mp (List.take_subset k s hf)
      have hfeq : f = e := List.inj_on_of_nodup_map hnd hfm he hfe
      exact hfeq ▸ hf
    · intro hin
      exact List.mem_map_of_mem Prod.fst hin
  have hrk : pruneRemovedKeys N m = (s.take k).map Prod.fst := by
    have hvalid : (m.filter fun e => e.2.isSome) = m := List.filter_eq_self.mpr hall
    simp only [pruneRemovedKeys, hvalid, ← hs, hslen]
    have h2 : N + k - N = k := by omega
    rw [h2]
  have hmemres : ∀ e, (e ∈ m.filter fun e2 => decide (e2.1 ∉ pruneRemovedKeys N m)) ↔
      (e ∈ m ∧ e ∉ s.take k) := by
    intro e
    rw [List.mem_filter, decide_eq_true_eq, hrk]
    constructor
    · rintro ⟨hem, hkey⟩
      exact ⟨hem, fun hc => hkey ((hrkey e hem).mpr hc)⟩
    · rintro ⟨hem, hnin⟩
      exact ⟨hem, fun hc => hnin ((hrkey e hem).mp hc)⟩
  have hfiltdrop : (s.filter fun e2 => decide (e2.1 ∉ pruneRemovedKeys N m)) = s.drop k := by
    have hstep : (s.filter fun e2 => decide (e2.1 ∉ pruneRemovedKeys N m))
        = ((s.take k ++ s.drop k).filter fun e2 => decide (e2.1 ∉ pruneRemovedKeys N m)) := by
      rw [hsplit]
    rw [hstep, List.filter_append]
    have ht0 : ((s.take k).filter fun e2 => decide (e2.1 ∉ pruneRemovedKeys N m)) = [] := by
      rw [List.filter_eq_nil_iff]
      intro a ha
      rw [decide_eq_true_eq, hrk]
      intro hcon
      exact hcon (List.mem_map_of_mem Prod.fst ha)
    have hd1 : ((s.drop k).filter fun e2 => decide (e2.1 ∉ pruneRemovedKeys N m)) = s.drop k := by
      rw [List.filter_eq_self]
      intro b hb
      rw [decide_eq_true_eq, hrk]
      intro hcon
      have hbm : b ∈ m := hperm.mem_iff.mp (List.drop_subset k s hb)
      exact hdisj ((hrkey b hbm).mp hcon) hb
    rw [ht0, hd1, List.nil_append]
  have hresperm :
      (m.filter fun e2 => decide (e2.1 ∉ pruneRemovedKeys N m)).Perm (s.drop k) := by
    have h1 := (hperm.symm).filter fun e2 => decide (e2.1 ∉ pruneRemovedKeys N m)
    rw [hfiltdrop] at h1
    exact h1
  refine ⟨?_, ?_, ?_⟩
  · rw [hresperm.length_eq, List.length_drop, hslen]
    omega
  · intro e he
    exact (List.mem_filter.mp he).1
  · intro e he hre e2 he2
    have hetake : e ∈ s.take k := by
      by_contra hc
      exact hre ((hmemres e).mpr ⟨he, hc⟩)
    have he2m := (hmemres e2).mp he2
    have he2drop : e2 ∈ s.drop k := by
      have he2s : e2 ∈ s := hperm.mem_iff.mpr he2m.1
      rcases List.mem_append.mp (by rw [hsplit]; exact he2s :
          e2 ∈ s.take k ++ s.drop k) with hcase | hcase
      · exact absurd hcase he2m.2
      · exact hcase
    have hle : tsLe e e2 := htd e hetake e2 he2drop
    have hne : e ≠ e2 := by
      intro hc
      exact he2m.2 (hc ▸ hetake)
    have hkne : tsKey e ≠ tsKey e2 := hinj e he e2 he2m.1 hne
    exact lt_of_le_of_ne hle hkne

/-- C7: when persistence is enabled and the entry count does not exceed
`max_entries`, pruning leaves the map unchanged; entries with unparseable
timestamps are never removed by pruning (though they count toward the size
that triggers it); and in the claim's scenario — `max_entries = N` and
`N + k` parseable entries (distinct keys and distinct timestamps, `k > 0`) —
pruning keeps exactly `N` entries, all drawn from the map, and every removed
entry is strictly older than every kept one. -/
theorem c7_pruning (p : PersistenceConfig) (m : TSMap) (N k : ℕ) :
    (p.enabled = true → m.length ≤ p.max_sku_entries →
        manage_sku_fetch_timestamps p m = m)
    ∧ ((m.map Prod.fst).Nodup → ∀ e ∈ m, e.2 = none →
        e ∈ manage_sku_fetch_timestamps p m)
    ∧ (p.enabled = true → p.max_sku_entries = N → m.length = N + k → 0 < k →
        (m.map Prod.fst).Nodup →
        (∀ e ∈ m, e.2.isSome = true) →
        (∀ a ∈ m, ∀ b ∈ m, a ≠ b → tsKey a ≠ tsKey b) →
        (manage_sku_fetch_timestamps p m).length = N
        ∧ (∀ e ∈ manage_sku_fetch_timestamps p m, e ∈ m)
        ∧ (∀ e ∈ m, e ∉ manage_sku_fetch_timestamps p m →
            ∀ e2 ∈ manage_sku_fetch_timestamps p m, tsKey e < tsKey e2)) := by
  refine ⟨?_, ?_, ?_⟩
  · intro hen hle
    unfold manage_sku_fetch_timestamps
    rw [if_neg (by simp [hen]), if_neg (by omega)]
  · intro hnd e he hnone
    unfold manage_sku_fetch_timestamps
    by_cases hen : p.enabled = false
    · rw [if_pos hen]
      exact he
    · rw [if_neg hen]
      by_cases hsz : p.max_sku_entries < m.length
      · rw [if_pos hsz, List.mem_filter]
        refine ⟨he, ?_⟩
        rw [decide_eq_true_eq]
        intro hker
        simp only [pruneRemovedKeys] at hker
        obtain ⟨f, hf, hfe⟩ := List.mem_map.mp hker
        have hfv : f ∈ m.filter fun e2 => e2.2.isSome :=
          (List.perm_insertionSort tsLe _).mem_iff.mp (List.take_subset _ _ hf)
        have hfm : f ∈ m := (List.mem_filter.mp hfv).1
        have hfsome : f.2.isSome = true := (List.mem_filter.mp hfv).2
        have hfeq : f = e := List.inj_on_of_nodup_map hnd hfm he hfe
        rw [hfeq, hnone] at hfsome
        cases hfsome
      · rw [if_neg hsz]
        exact he
  · intro hen hmax hlen hk hnd hall hinj
    have hmanage : manage_sku_fetch_timestamps p m
        = m.filter fun e2 => decide (e2.1 ∉ pruneRemovedKeys N m) := by
      unfold manage_sku_fetch_timestamps
      rw [if_neg (by simp [hen]), if_pos (by omega), hmax]
    rw [hmanage]
    exact prune_branch_facts m N k hnd hall hinj hlen

/-- C7 witness: with `max_entries = 2` and three parseable entries, pruning
keeps exactly the two newest entries and removes the oldest. -/
theorem c7_witness :
    (manage_sku_fetch_timestamps ⟨true, 24, 2⟩
        [("a", some 1), ("b", some 3), ("c", some 2)]).length = 2 := by
  exact ((c7_pruning ⟨true, 24, 2⟩ [("a", some 1), ("b", some 3), ("c", some 2)] 2 1).2.2
    rfl rfl rfl (by omega) (by decide) (by decide) (by decide)).1

/-! ## Claim C8: transport errors and cycle persistence -/

theorem process_items_append (p : PersistenceConfig) (histUrlCfg : Bool)
    (envHist : String → Option HistoryJson) (now : ℤ) (l1 l2 : List Item) (ts : TSMap) :
    process_items p histUrlCfg envHist now (l1 ++ l2) ts
      = ((process_items p histUrlCfg envHist now l1 ts).1
            ++ (process_items p histUrlCfg envHist now l2
                  (process_items p histUrlCfg envHist now l1 ts).2.2).1,
          (process_items p histUrlCfg envHist now l1 ts).2.1
            ++ (process_items p histUrlCfg envHist now l2
                  (process_items p histUrlCfg envHist now l1 ts).2.2).2.1,
          (process_items p histUrlCfg envHist now l2
              (process_items p histUrlCfg envHist now l1 ts).2.2).2.2) := by
  induction l1 generalizing ts with
  | nil => simp [process_items]
  | cons it rest ih =>
    simp only [List.cons_append, process_items, ih]
    cases (process_item_history p histUrlCfg envHist now it ts).1 with
    | none => simp [ih]
    | some d => simp [ih]

/-- Counterexample environment for C8: a two-item batch in which the history
read for `s1` fails with a transport error while the read for `s2`
succeeds. -/
def envC8 : CycleEnv :=
  ⟨some 2, some [⟨some "s1", some "10", true⟩, ⟨some "s2", some "10", true⟩],
    fun s => if s = "s2" then some ⟨[], true⟩ else none⟩

/-- C8 counterexample: the transport error on item `s1`'s history read does
not abort the cycle — item `s2`'s history is still fetched afterwards,
contradicting the claim that a transport error on any upstream read skips
the remaining items. -/
theorem c8_counterexample :
    envC8.history "s1" = none
    ∧ (check_prices ⟨false, 24, 1000⟩ true envC8 0 []).fetched = ["s1", "s2"] := by
  constructor
  · decide
  · decide

/-- C8 as amended: a transport error on the total-count read or on the
item-batch read aborts the cycle early with no items processed, yet the
loaded timestamp map is still saved; the timestamp map is saved exactly once
in every cycle; the item loop never aborts — processing `l1 ++ l2` always
continues into `l2` with whatever state `l1` left, regardless of per-item
failures; and a transport error on one item's history read skips only that
item, leaving the timestamp map unchanged while the fetch attempt is still
recorded. -/
theorem c8_cycle_error_handling (p : PersistenceConfig) (histUrlCfg : Bool) (env : CycleEnv)
    (now : ℤ) (m0 : TSMap) :
    (env.total_count = none →
      check_prices p histUrlCfg env now m0
        = ⟨[if p.enabled then m0 else []], [], []⟩)
    ∧ (∀ total, env.total_count = some total → get_all_items total env = none →
        check_prices p histUrlCfg env now m0
          = ⟨[if p.enabled then m0 else []], [], []⟩)
    ∧ (check_prices p histUrlCfg env now m0).saved.length = 1
    ∧ (∀ l1 l2 ts, process_items p histUrlCfg env.history now (l1 ++ l2) ts
        = ((process_items p histUrlCfg env.history now l1 ts).1
              ++ (process_items p histUrlCfg env.history now l2
                    (process_items p histUrlCfg env.history now l1 ts).2.2).1,
            (process_items p histUrlCfg env.history now l1 ts).2.1
              ++ (process_items p histUrlCfg env.history now l2
                    (process_items p histUrlCfg env.history now l1 ts).2.2).2.1,
            (process_items p histUrlCfg env.history now l2
                (process_items p histUrlCfg env.history now l1 ts).2.2).2.2))
    ∧ (∀ (item : Item) (sku : String) (ts : TSMap), item.Sku = some sku → sku ≠ "" →
        sku_on_cooldown p ts sku now = false → histUrlCfg = true →
        env.history sku = none →
        process_item_history p histUrlCfg env.history now item ts = (none, ts, [sku])) := by
  refine ⟨?_, ?_, ?_, ?_, ?_⟩
  · intro htc
    simp only [check_prices, htc]
  · intro total htc hitems
    simp only [check_prices, htc, hitems]
  · simp only [check_prices]
    cases htc : env.total_count with
    | none => simp [htc]
    | some total =>
      cases hga : get_all_items total env with
      | none => simp [htc, hga]
      | some items => simp [htc, hga]
  · intro l1 l2 ts
    exact process_items_append p histUrlCfg env.history now l1 l2 ts
  · intro item sku ts hsku hne hcd hcfg hfail
    subst hcfg
    simp [process_item_history, hsku, hne, _fetch_sku_history_if_needed, hcd, hfail]

/-- C8 witness: a single item whose history read fails is skipped with the
map unchanged and the fetch attempt recorded. -/
theorem c8_witness :
    process_item_history ⟨false, 24, 1000⟩ true (fun _ => none) 0
      ⟨some "A", some "1", true⟩ [] = (none, [], ["A"]) :=
  (c8_cycle_error_handling ⟨false, 24, 1000⟩ true ⟨none, none, fun _ => none⟩ 0 []).2.2.2.2
    ⟨some "A", some "1", true⟩ "A" [] rfl (by decide) (by decide) rfl rfl

/-! ## Claim C9: idempotence of the cycle under active cooldown -/

theorem process_items_all_on_cooldown (p : PersistenceConfig) (histUrlCfg : Bool)
    (envHist : String → Option HistoryJson) (now : ℤ) (items : List Item) (ts : TSMap)
    (h : ∀ it ∈ items, ∀ sku, it.Sku = some sku → sku ≠ "" →
        sku_on_cooldown p ts sku now = true) :
    process_items p histUrlCfg envHist now items ts = ([], [], ts) := by
  induction items with
  | nil => rfl
  | cons it rest ih =>
    have hit : process_item_history p histUrlCfg envHist now it ts = (none, ts, []) := by
      cases hsku : it.Sku with
      | none => simp [process_item_history, hsku]
      | some sku =>
        by_cases he : sku = ""
        · simp [process_item_history, hsku, he]
        · have hcd := h it (List.mem_cons_self it rest) sku hsku he
          simp [process_item_history, hsku, he, _fetch_sku_history_if_needed, hcd]
    have hrest := ih fun it2 h2 => h it2 (List.mem_cons_of_mem it h2)
    simp [process_items, hit, hrest]

/-- C9: running the cycle a second time with the same upstream responses,
persistence enabled, the first run's saved map loaded, and the cooldown
still active at the second run's time for every SKU carried by the batch,
produces zero notifications on the second call. -/
theorem c9_second_run_idempotent (p : PersistenceConfig) (histUrlCfg : Bool) (env : CycleEnv)
    (now1 now2 : ℤ) (m0 m1 : TSMap)
    (hen : p.enabled = true)
    (hsaved : (check_prices p histUrlCfg env now1 m0).saved = [m1])
    (hcool : ∀ it ∈ env.items.getD [], ∀ sku, it.Sku = some sku → sku ≠ "" →
        sku_on_cooldown p m1 sku now2 = true) :
    (check_prices p histUrlCfg env now2 m1).notifs = [] := by
  simp only [check_prices, hen, if_true]
  cases htc : env.total_count with
  | none => rfl
  | some total =>
    cases hit : get_all_items total env with
    | none => simp [hit]
    | some items =>
      have hitems : env.items = some items := by
        unfold get_all_items at hit
        by_cases hle : total ≤ 0
        · rw [if_pos hle] at hit
          cases hit
        · rw [if_neg hle] at hit
          exact hit
      have hcool2 : ∀ it ∈ items, ∀ sku, it.Sku = some sku → sku ≠ "" →
          sku_on_cooldown p m1 sku now2 = true := by
        intro it hi sku hsku hne
        exact hcool it (by rw [hitems]; exact hi) sku hsku hne
      have hloop := process_items_all_on_cooldown p histUrlCfg env.history now2 items m1 hcool2
      simp [hit, hloop]

/-- Witness environment for C9: one item with SKU `A`, whose history shows a
drop from 100 to 10 — eligible, so the first run notifies. -/
def envC9 : CycleEnv :=
  ⟨some 1, some [⟨some "A", some "10", true⟩],
    fun _ => some ⟨[some "100", some "10"], true⟩⟩

/-- C9 witness: after a first run at time 0 started from an empty map saved
`[("A", some 0)]`, a second run one hundred seconds later (well inside the
24-hour cooldown) produces zero notifications. -/
theorem c9_witness :
    (check_prices ⟨true, 24, 1000⟩ true envC9 100 [("A", some 0)]).notifs = [] := by
  refine c9_second_run_idempotent ⟨true, 24, 1000⟩ true envC9 0 100 [] [("A", some 0)]
    rfl ?_ ?_
  · decide
  · intro it hit sku hsku hne
    have hone : it = ⟨some "A", some "10", true⟩ := by
      have : envC9.items.getD [] = [⟨some "A", some "10", true⟩] := by decide
      rw [this] at hit
      exact List.mem_singleton.mp hit
    rw [hone] at hsku
    have hskua : sku = "A" := by
      cases hsku
      rfl
    rw [hskua]
    decide

end BBPriceDrop
